import Mathlib

/-
  Verification of winglot/prometheus-ecs-sd.

  Shallow embedding of the Go sources:
    - internal/cache/cache.go        (generic TTL cache)
    - the discovery package          (caching ECS client decorator, refresh engine,
                                      tag-to-label normalizer)

  Modelling conventions:
    - `time.Time` / `UnixNano` instants and `time.Duration` values are `Int`
      nanoseconds; each operation that calls `time.Now()` takes the current
      instant `now` as an explicit argument.
    - Go slices are `List`, Go pointers are `Option` where the code checks for
      nil; pointer fields that the code dereferences unconditionally
      (`*tag.Key`, `*task.TaskArn`, `*params.Cluster`, `*params.ResourceArn`)
      are modelled as plain values, since a nil there panics in Go.
    - A Go `(value, error)` return pair is `Option value × Option GoErr`
      (nil value / nil error = `none`).
    - The wrapped AWS SDK client returns a non-nil output exactly when the
      error is nil, so it is modelled as `Except GoErr output`.
    - `sync.Map` is an association list with at most one entry per key;
      concurrency (mutex-free maps, the janitor goroutine, channels) is
      modelled by explicit state passing, the janitor by its single-sweep body.
-/

set_option maxRecDepth 4000

namespace PromEcsSd

/-- A Go error value, abstracted to its message. -/
abbrev GoErr := String

/-- `time.Second` in nanoseconds. -/
def nsPerSecond : Int := 1000000000

/-- `time.Minute` in nanoseconds. -/
def nsPerMinute : Int := 60 * nsPerSecond

/-- `time.Hour` in nanoseconds. -/
def nsPerHour : Int := 60 * nsPerMinute

/-! ## Generic TTL cache (internal/cache/cache.go) -/

/-- cache.go `item`: arbitrary data with expiration time (`expires = 0` when
the entry never expires, mirroring the zero int64 in Go). -/
structure CacheItem (α : Type) where
  data : α
  expires : Int
  deriving Repr, DecidableEq

/-- Association-list lookup for the `sync.Map`; first entry with the key wins
(the `Cache.set` below keeps at most one entry per key). -/
def findEntry (key : String) : List (String × β) → Option β
  | [] => none
  | (k, v) :: rest => if k = key then some v else findEntry key rest

/-- Remove every entry with the given key (`sync.Map.Delete` / overwrite). -/
def removeEntry (key : String) : List (String × β) → List (String × β)
  | [] => []
  | (k, v) :: rest =>
    if k = key then removeEntry key rest else (k, v) :: removeEntry key rest

/-- cache.go `Cache` (the `close` channel is omitted: it only stops the
janitor goroutine, which is modelled by its single-sweep body `Cache.sweep`). -/
structure Cache (α : Type) where
  items : List (String × CacheItem α)
  returnStale : Bool
  janitorInterval : Int
  defaultExpiration : Int
  deriving Repr

/-- cache.go `Get`: returns `(data-pointer, fresh?)`; an expired entry is
served as `(value, false)` when `returnStale` is set and as `(nil, false)`
otherwise; a missing entry is `(nil, false)`. -/
def Cache.get (c : Cache α) (key : String) (now : Int) : Option α × Bool :=
  match findEntry key c.items with
  | none => (none, false)
  | some it =>
    if it.expires > 0 ∧ now > it.expires then
      if c.returnStale then (some it.data, false) else (none, false)
    else
      (some it.data, true)

/-- cache.go `Set`: `duration ≤ 0` leaves `expires` at its zero value, i.e.
the entry never expires; otherwise `expires = now + duration`. Overwrites any
existing entry for the key. -/
def Cache.set (c : Cache α) (key : String) (value : α) (duration : Int)
    (now : Int) : Cache α :=
  let expires : Int := if duration > 0 then now + duration else 0
  { c with items := (key, ⟨value, expires⟩) :: removeEntry key c.items }

/-- cache.go `SetDefault`: `Set` with the cache's configured default TTL. -/
def Cache.setDefault (c : Cache α) (key : String) (value : α) (now : Int) :
    Cache α :=
  c.set key value c.defaultExpiration now

/-- cache.go `Delete`. -/
def Cache.delete (c : Cache α) (key : String) : Cache α :=
  { c with items := removeEntry key c.items }

/-- One pass of the cache.go `janitor` loop body over the items: delete every
entry whose `expires` is positive and strictly in the past. -/
def sweepItems (now : Int) : List (String × CacheItem α) → List (String × CacheItem α)
  | [] => []
  | (k, it) :: rest =>
    if it.expires > 0 ∧ now > it.expires then sweepItems now rest
    else (k, it) :: sweepItems now rest

/-- The cache after one janitor sweep at instant `now`. -/
def Cache.sweep (c : Cache α) (now : Int) : Cache α :=
  { c with items := sweepItems now c.items }

/-- cache.go `WithJanitor`: rejected (error, ignored by `New`) when the
interval is not positive, otherwise records the interval. -/
def cacheWithJanitor (interval : Int) (c : Cache α) : Cache α :=
  if interval ≤ 0 then c else { c with janitorInterval := interval }

/-- cache.go `WithGetReturnStale`. -/
def cacheWithGetReturnStale (c : Cache α) : Cache α :=
  { c with returnStale := true }

/-- cache.go `WithDefaultExpiration`. -/
def cacheWithDefaultExpiration (expiration : Int) (c : Cache α) : Cache α :=
  { c with defaultExpiration := expiration }

/-- cache.go `New`: start from `janitorInterval = -1`,
`defaultExpiration = -1` and apply the options in order. -/
def cacheNew (opts : List (Cache α → Cache α)) : Cache α :=
  opts.foldl (fun c o => o c)
    { items := [], returnStale := false, janitorInterval := -1,
      defaultExpiration := -1 }

/-! ### Basic cache lemmas -/

theorem findEntry_removeEntry_self (key : String)
    (l : List (String × β)) : findEntry key (removeEntry key l) = none := by
  induction l with
  | nil => rfl
  | cons p rest ih =>
    obtain ⟨k, v⟩ := p
    by_cases h : k = key <;> simp [removeEntry, findEntry, h, ih]

theorem findEntry_removeEntry_other (key k : String) (hk : k ≠ key)
    (l : List (String × β)) :
    findEntry k (removeEntry key l) = findEntry k l := by
  induction l with
  | nil => rfl
  | cons p rest ih =>
    obtain ⟨k', v⟩ := p
    by_cases h : k' = key
    · subst h
      simp [removeEntry, findEntry, Ne.symm hk, ih]
    · by_cases h2 : k' = k
      · subst h2
        simp [removeEntry, findEntry, h, ih]
      · simp [removeEntry, findEntry, h, h2, ih]

theorem findEntry_set_self (c : Cache α) (key : String) (v : α)
    (d now : Int) :
    findEntry key (c.set key v d now).items
      = some ⟨v, if d > 0 then now + d else 0⟩ := by
  simp [Cache.set, findEntry]

theorem findEntry_set_other (c : Cache α) (key k : String) (hk : k ≠ key)
    (v : α) (d now : Int) :
    findEntry k (c.set key v d now).items = findEntry k c.items := by
  simp [Cache.set, findEntry, Ne.symm hk, findEntry_removeEntry_other key k hk]

theorem returnStale_set (c : Cache α) (key : String) (v : α) (d now : Int) :
    (c.set key v d now).returnStale = c.returnStale := rfl

/-- Representation invariant of the `sync.Map` embedding: at most one entry
per key. -/
def uniqueKeys (l : List (String × β)) : Prop :=
  l.Pairwise (fun a b => a.1 ≠ b.1)

/-- Sweeping never introduces an entry for an absent key. -/
theorem findEntry_sweepItems_none (now : Int) (k : String)
    (l : List (String × CacheItem α)) (h : findEntry k l = none) :
    findEntry k (sweepItems now l) = none := by
  induction l with
  | nil => rfl
  | cons p rest ih =>
    obtain ⟨k', it'⟩ := p
    simp only [findEntry] at h
    by_cases hk : k' = k
    · simp [hk] at h
    · have h2 : findEntry k rest = none := by simpa [hk] using h
      by_cases hx : it'.expires > 0 ∧ now > it'.expires
      · simpa [sweepItems, hx] using ih h2
      · simpa [sweepItems, hx, findEntry, hk] using ih h2

/-- A key that differs from every stored key is absent. -/
theorem findEntry_eq_none_of_forall_ne (k : String)
    (l : List (String × β)) (h : ∀ p ∈ l, k ≠ p.1) :
    findEntry k l = none := by
  induction l with
  | nil => rfl
  | cons p rest ih =>
    obtain ⟨k', v⟩ := p
    have hk : k ≠ k' := h (k', v) (by simp)
    simp only [findEntry, if_neg (Ne.symm hk)]
    exact ih (fun q hq => h q (by simp [hq]))

/-- Sweeping deletes the entry for `k` when its expiry has passed (under the
unique-keys representation invariant). -/
theorem findEntry_sweepItems_expired (now : Int) (k : String)
    (l : List (String × CacheItem α)) (hu : uniqueKeys l) (it : CacheItem α)
    (hfind : findEntry k l = some it)
    (hx : it.expires > 0 ∧ now > it.expires) :
    findEntry k (sweepItems now l) = none := by
  induction l with
  | nil => simp [findEntry] at hfind
  | cons p rest ih =>
    obtain ⟨k', it'⟩ := p
    have hu' := (List.pairwise_cons.mp hu).2
    have hhead := (List.pairwise_cons.mp hu).1
    simp only [findEntry] at hfind
    by_cases hk : k' = k
    · subst hk
      simp only [if_pos rfl] at hfind
      cases hfind
      have hrest : findEntry k' rest = none :=
        findEntry_eq_none_of_forall_ne k' rest (fun p hp => hhead p hp)
      simp only [sweepItems, if_pos hx]
      exact findEntry_sweepItems_none now k' rest hrest
    · have h2 : findEntry k rest = some it := by simpa [hk] using hfind
      by_cases hx' : it'.expires > 0 ∧ now > it'.expires
      · simpa [sweepItems, hx'] using ih hu' h2
      · simpa [sweepItems, hx', findEntry, hk] using ih hu' h2

/-- Sweeping keeps the entry for `k` when its expiry has not passed. -/
theorem findEntry_sweepItems_live (now : Int) (k : String)
    (l : List (String × CacheItem α)) (it : CacheItem α)
    (hfind : findEntry k l = some it)
    (hx : ¬ (it.expires > 0 ∧ now > it.expires)) :
    findEntry k (sweepItems now l) = some it := by
  induction l with
  | nil => simp [findEntry] at hfind
  | cons p rest ih =>
    obtain ⟨k', it'⟩ := p
    simp only [findEntry] at hfind
    by_cases hk : k' = k
    · subst hk
      simp only [if_pos rfl] at hfind
      cases hfind
      simp [sweepItems, hx, findEntry]
    · have h2 : findEntry k rest = some it := by simpa [hk] using hfind
      by_cases hx' : it'.expires > 0 ∧ now > it'.expires
      · simpa [sweepItems, hx'] using ih h2
      · simpa [sweepItems, hx', findEntry, hk] using ih h2

/-! ## Claim C1: cache Get-after-Set behaviour -/

/-- **C1.** Cache Get-after-Set behaviour: after `Set(k, v, ttl)` with
`ttl ≤ 0`, `Get(k)` at any later instant returns `(v, true)`; after
`Set(k, v, T)` with `T > 0`, `Get(k)` at an instant not past `now + T`
returns `(v, true)`, and once `now + T` has passed it returns `(v, false)`
when stale-serving is enabled and `(nil, false)` when it is disabled
(for real clock instants, `0 ≤ now`); `Get` on a key never set returns
`(nil, false)`. -/
theorem C1_cache_get_after_set :
    (∀ (α : Type) (c : Cache α) (k : String) (v : α) (ttl now later : Int),
      ttl ≤ 0 → (c.set k v ttl now).get k later = (some v, true)) ∧
    (∀ (α : Type) (c : Cache α) (k : String) (v : α) (ttl now later : Int),
      ttl > 0 → later ≤ now + ttl →
      (c.set k v ttl now).get k later = (some v, true)) ∧
    (∀ (α : Type) (c : Cache α) (k : String) (v : α) (ttl now later : Int),
      0 ≤ now → ttl > 0 → later > now + ttl → c.returnStale = true →
      (c.set k v ttl now).get k later = (some v, false)) ∧
    (∀ (α : Type) (c : Cache α) (k : String) (v : α) (ttl now later : Int),
      0 ≤ now → ttl > 0 → later > now + ttl → c.returnStale = false →
      (c.set k v ttl now).get k later = (none, false)) ∧
    (∀ (α : Type) (c : Cache α) (k : String) (now : Int),
      findEntry k c.items = none → c.get k now = (none, false)) := by
  refine ⟨?_, ?_, ?_, ?_, ?_⟩
  · intro α c k v ttl now later httl
    have hle : ¬ ttl > 0 := by omega
    simp [Cache.get, findEntry_set_self, hle]
  · intro α c k v ttl now later httl hfresh
    simp only [Cache.get, findEntry_set_self, if_pos httl]
    have : ¬ (now + ttl > 0 ∧ later > now + ttl) := by omega
    simp [this]
  · intro α c k v ttl now later hnow httl hlate hstale
    simp only [Cache.get, findEntry_set_self, if_pos httl]
    have hx : now + ttl > 0 ∧ later > now + ttl := by omega
    simp [hx, returnStale_set, hstale]
  · intro α c k v ttl now later hnow httl hlate hstale
    simp only [Cache.get, findEntry_set_self, if_pos httl]
    have hx : now + ttl > 0 ∧ later > now + ttl := by omega
    simp [hx, returnStale_set, hstale]
  · intro α c k now hnone
    simp [Cache.get, hnone]

/-- Witness for C1 at concrete inputs. -/
theorem C1_cache_get_after_set_witness :
    ((cacheNew (α := Nat) [cacheWithGetReturnStale]).set "k" 7 (-1) 100).get "k" 999999 = (some 7, true) ∧
    ((cacheNew (α := Nat) [cacheWithGetReturnStale]).set "k" 7 10 100).get "k" 110 = (some 7, true) ∧
    ((cacheNew (α := Nat) [cacheWithGetReturnStale]).set "k" 7 10 100).get "k" 111 = (some 7, false) ∧
    ((cacheNew (α := Nat) []).set "k" 7 10 100).get "k" 111 = (none, false) ∧
    (cacheNew (α := Nat) []).get "k" 5 = (none, false) := by
  refine ⟨?_, ?_, ?_, ?_, ?_⟩
  · exact C1_cache_get_after_set.1 Nat _ "k" 7 (-1) 100 999999 (by decide)
  · exact C1_cache_get_after_set.2.1 Nat _ "k" 7 10 100 110 (by decide) (by decide)
  · exact C1_cache_get_after_set.2.2.1 Nat _ "k" 7 10 100 111 (by decide) (by decide) (by decide) (by rfl)
  · exact C1_cache_get_after_set.2.2.2.1 Nat _ "k" 7 10 100 111 (by decide) (by decide) (by decide) (by rfl)
  · exact C1_cache_get_after_set.2.2.2.2 Nat _ "k" 5 (by rfl)

/-! ## Claim C6: janitor sweep invariant -/

/-- **C6.** On a sweep at instant `now`, the janitor deletes exactly the
entries whose expiry instant has passed (`expires > 0 ∧ now > expires`),
irrespective of the stale-serving flag; an immortal entry (no expiry,
`expires ≤ 0`) is never deleted; and after a sweep has removed an expired
entry, `Get` on that key returns `(nil, false)` even with stale-serving
enabled. -/
theorem C6_janitor_sweep :
    (∀ (α : Type) (c : Cache α) (now : Int) (k : String) (it : CacheItem α),
      uniqueKeys c.items →
      findEntry k c.items = some it → it.expires > 0 → now > it.expires →
      findEntry k (c.sweep now).items = none) ∧
    (∀ (α : Type) (c : Cache α) (now : Int) (k : String) (it : CacheItem α),
      findEntry k c.items = some it → ¬ (it.expires > 0 ∧ now > it.expires) →
      findEntry k (c.sweep now).items = some it) ∧
    (∀ (α : Type) (c : Cache α) (now : Int) (k : String) (it : CacheItem α),
      findEntry k c.items = some it → it.expires ≤ 0 →
      findEntry k (c.sweep now).items = some it) ∧
    (∀ (α : Type) (c : Cache α) (b : Bool) (now : Int),
      ({ c with returnStale := b } : Cache α).sweep now
        = { c.sweep now with returnStale := b }) ∧
    (∀ (α : Type) (c : Cache α) (now later : Int) (k : String) (it : CacheItem α),
      uniqueKeys c.items →
      findEntry k c.items = some it → it.expires > 0 → now > it.expires →
      (c.sweep now).get k later = (none, false)) := by
  have hdel : ∀ (α : Type) (c : Cache α) (now : Int) (k : String) (it : CacheItem α),
      uniqueKeys c.items →
      findEntry k c.items = some it → it.expires > 0 → now > it.expires →
      findEntry k (c.sweep now).items = none := by
    intro α c now k it hu hfind hpos hpast
    exact findEntry_sweepItems_expired now k c.items hu it hfind ⟨hpos, hpast⟩
  refine ⟨hdel, ?_, ?_, ?_, ?_⟩
  · intro α c now k it hfind hlive
    exact findEntry_sweepItems_live now k c.items it hfind hlive
  · intro α c now k it hfind himm
    refine findEntry_sweepItems_live now k c.items it hfind ?_
    omega
  · intro α c b now
    rfl
  · intro α c now later k it hu hfind hpos hpast
    have h := hdel α c now k it hu hfind hpos hpast
    simp [Cache.get, h]

/-- Witness for C6 at concrete inputs. -/
theorem C6_janitor_sweep_witness :
    (let c := (cacheNew (α := Nat) [cacheWithGetReturnStale]).set "a" 1 10 100
     findEntry "a" (c.sweep 200).items = none ∧ (c.sweep 200).get "a" 200 = (none, false)) ∧
    (let c := (cacheNew (α := Nat) [cacheWithGetReturnStale]).set "b" 2 (-5) 100
     findEntry "b" (c.sweep 99999).items = some ⟨2, 0⟩) := by
  constructor
  · constructor
    · exact C6_janitor_sweep.1 Nat _ 200 "a" ⟨1, 110⟩ (by simp [uniqueKeys, Cache.set, cacheNew, cacheWithGetReturnStale, removeEntry]) (by rfl) (by decide) (by decide)
    · exact C6_janitor_sweep.2.2.2.2 Nat _ 200 200 "a" ⟨1, 110⟩ (by simp [uniqueKeys, Cache.set, cacheNew, cacheWithGetReturnStale, removeEntry]) (by rfl) (by decide) (by decide)
  · exact C6_janitor_sweep.2.2.1 Nat _ 99999 "b" ⟨2, 0⟩ (by rfl) (by decide)

/-! ## Label normalizer (discovery package, `tagsToLabelSet`) -/

/-- `ecs/types.Tag` with its two pointer fields dereferenced (the code uses
`*tag.Key` / `*tag.Value` unconditionally). -/
structure Tag where
  key : String
  value : String
  deriving Repr, DecidableEq

/-- A Prometheus `model.LabelSet`: a map from label name to label value,
represented as an association list where inserting overwrites. -/
abbrev LabelSet := List (String × String)

/-- Map-style insert: overwrites any previous binding of the key. -/
def lsInsert (ls : LabelSet) (k v : String) : LabelSet :=
  (k, v) :: removeEntry k ls

/-- `model.LabelSet.Merge`: a copy of the receiver updated with every entry
of the argument (the argument wins on key collision). -/
def lsMerge (base overlay : LabelSet) : LabelSet :=
  overlay.foldl (fun acc p => lsInsert acc p.1 p.2) base

/-- `model.MetaLabelPrefix + "ecs_"`. -/
def labelEcs : String := "__meta_ecs_"

/-- The reserved namespace for service-tag labels. -/
def labelEcsServiceTag : String := labelEcs ++ "service_tag_"

/-- `labelClusterName`. -/
def labelClusterName : String := labelEcs ++ "cluster_name"

/-- `labelServiceName`. -/
def labelServiceName : String := labelEcs ++ "service_name"

/-- Membership in the Go regexp character class `[a-zA-Z0-9_]`. -/
def isWordChar (c : Char) : Bool :=
  ('a' ≤ c && c ≤ 'z') || ('A' ≤ c && c ≤ 'Z') || ('0' ≤ c && c ≤ '9') || c = '_'

/-- `[a-z]` of the Go regexp. -/
def isAsciiLower (c : Char) : Bool := 'a' ≤ c && c ≤ 'z'

/-- `[A-Z]` of the Go regexp. -/
def isAsciiUpper (c : Char) : Bool := 'A' ≤ c && c ≤ 'Z'

/-- `valid.ReplaceAllString(key, "_")` for `valid = [^a-zA-Z0-9_]`: each rune
outside the class becomes an underscore. -/
def replaceInvalid (l : List Char) : List Char :=
  l.map (fun c => if isWordChar c then c else '_')

/-- `separator.ReplaceAllString(key, "${1}_${2}")` for
`separator = ([a-z])([A-Z])`. A match is one lowercase rune followed by one
uppercase rune; since the two classes are disjoint, matches can never
overlap, so the left-to-right non-overlapping replacement inserts an
underscore between every adjacent lowercase–uppercase pair. -/
def insertCamelSep : List Char → List Char
  | [] => []
  | a :: rest =>
    match rest with
    | [] => [a]
    | b :: _ =>
      if isAsciiLower a && isAsciiUpper b then a :: '_' :: insertCamelSep rest
      else a :: insertCamelSep rest

/-- `strings.ToLower` on the ASCII-only intermediate string. -/
def asciiToLower (c : Char) : Char :=
  if isAsciiUpper c then Char.ofNat (c.toNat + 32) else c

/-- The label name built for one tag key inside the `tagsToLabelSet` loop:
replace invalid runes, split camelCase, lowercase, then prefix with the
service-tag namespace. -/
def tagKeyToLabelName (key : String) : String :=
  labelEcsServiceTag ++
    String.mk ((insertCamelSep (replaceInvalid key.toList)).map asciiToLower)

/-- discovery `tagsToLabelSet`: folds the tags into a label set (a later tag
with the same normalized key overwrites an earlier one, as in a Go map). -/
def tagsToLabelSet (tags : List Tag) : LabelSet :=
  tags.foldl (fun ls tag => lsInsert ls (tagKeyToLabelName tag.key) tag.value) []

/-! ### Spec-side normalizer for the C7 refinement

Built independently from the wording of the claim: (a) replace every
character that is not an ASCII letter, digit, or underscore with an
underscore; (b) insert an underscore between a lowercase letter and an
immediately following uppercase letter; (c) lowercase the whole string;
(d) prefix the fixed service-tag namespace. -/

/-- Modelled from the spec: step (a) of the claim. -/
def spec_replaceNonWord (l : List Char) : List Char :=
  l.map (fun c =>
    if ('a' ≤ c ∧ c ≤ 'z') ∨ ('A' ≤ c ∧ c ≤ 'Z') ∨ ('0' ≤ c ∧ c ≤ '9') ∨ c = '_'
    then c else '_')

/-- Modelled from the spec: step (b) of the claim, written as a right fold
that looks at the first character of the already-processed suffix. -/
def spec_camelBoundary (l : List Char) : List Char :=
  l.foldr
    (fun c acc =>
      match acc with
      | [] => [c]
      | d :: _ =>
        if ('a' ≤ c ∧ c ≤ 'z') ∧ ('A' ≤ d ∧ d ≤ 'Z') then c :: '_' :: acc
        else c :: acc)
    []

/-- Modelled from the spec: steps (a)–(d) of the claim composed. -/
def spec_labelNameOfTagKey (key : String) : String :=
  "__meta_ecs_service_tag_" ++
    String.mk ((spec_camelBoundary (spec_replaceNonWord key.toList)).map asciiToLower)

theorem spec_camelBoundary_cons (a : Char) (l : List Char) :
    spec_camelBoundary (a :: l)
      = match spec_camelBoundary l with
        | [] => [a]
        | d :: rest =>
          if ('a' ≤ a ∧ a ≤ 'z') ∧ ('A' ≤ d ∧ d ≤ 'Z') then a :: '_' :: d :: rest
          else a :: d :: rest := by
  simp only [spec_camelBoundary, List.foldr]
  cases h : List.foldr _ [] l <;> simp

/-- The head of `spec_camelBoundary l` is the head of `l`. -/
theorem spec_camelBoundary_head (a : Char) (l : List Char) :
    ∃ rest, spec_camelBoundary (a :: l) = a :: rest := by
  rw [spec_camelBoundary_cons]
  cases spec_camelBoundary l with
  | nil => exact ⟨[], rfl⟩
  | cons d rest =>
    by_cases h : ('a' ≤ a ∧ a ≤ 'z') ∧ ('A' ≤ d ∧ d ≤ 'Z')
    · exact ⟨'_' :: d :: rest, by simp [h]⟩
    · exact ⟨d :: rest, by simp [h]⟩

theorem insertCamelSep_cons2 (a b : Char) (tl : List Char) :
    insertCamelSep (a :: b :: tl)
      = if isAsciiLower a && isAsciiUpper b then a :: '_' :: insertCamelSep (b :: tl)
        else a :: insertCamelSep (b :: tl) := rfl

theorem lowerUpper_iff (a b : Char) :
    (isAsciiLower a && isAsciiUpper b) = true
      ↔ (('a' ≤ a ∧ a ≤ 'z') ∧ ('A' ≤ b ∧ b ≤ 'Z')) := by
  simp only [isAsciiLower, isAsciiUpper, Bool.and_eq_true, decide_eq_true_eq]

/-- The camelCase splitter of the source coincides with the one described by
the spec. -/
theorem insertCamelSep_eq_spec (l : List Char) :
    insertCamelSep l = spec_camelBoundary l := by
  induction l with
  | nil => rfl
  | cons a rest ih =>
    cases rest with
    | nil => rfl
    | cons b tl =>
      obtain ⟨r, hr⟩ := spec_camelBoundary_head b tl
      rw [spec_camelBoundary_cons, hr, insertCamelSep_cons2, ih, hr]
      by_cases h : ('a' ≤ a ∧ a ≤ 'z') ∧ ('A' ≤ b ∧ b ≤ 'Z')
      · rw [if_pos ((lowerUpper_iff a b).mpr h)]
        simp [h]
      · rw [if_neg (fun hb => h ((lowerUpper_iff a b).mp hb))]
        simp [h]

/-! ## Claim C7: label normalizer -/

/-- **C7.** For every tag key, the produced label name equals the result of
(a) replacing every character not an ASCII letter, digit or underscore with
an underscore, (b) inserting an underscore between a lowercase letter and an
immediately following uppercase letter, (c) lowercasing, (d) prefixing the
fixed service-tag namespace; tag values pass through unmodified; and the two
spec examples hold. -/
theorem C7_label_normalizer :
    (∀ key : String, tagKeyToLabelName key = spec_labelNameOfTagKey key) ∧
    (∀ t : Tag, tagsToLabelSet [t] = [(tagKeyToLabelName t.key, t.value)]) ∧
    tagKeyToLabelName "prometheus.io/scrape"
      = "__meta_ecs_service_tag_prometheus_io_scrape" ∧
    tagKeyToLabelName "someCamelCase"
      = "__meta_ecs_service_tag_some_camel_case" := by
  refine ⟨?_, ?_, ?_, ?_⟩
  · intro key
    have hmap : replaceInvalid key.toList = spec_replaceNonWord key.toList := by
      unfold replaceInvalid spec_replaceNonWord
      apply List.map_congr_left
      intro c _
      by_cases h : isWordChar c
      · have h' : ('a' ≤ c ∧ c ≤ 'z') ∨ ('A' ≤ c ∧ c ≤ 'Z') ∨ ('0' ≤ c ∧ c ≤ '9') ∨ c = '_' := by
          simp [isWordChar] at h
          tauto
        rw [if_pos h, if_pos h']
      · have h' : ¬ (('a' ≤ c ∧ c ≤ 'z') ∨ ('A' ≤ c ∧ c ≤ 'Z') ∨ ('0' ≤ c ∧ c ≤ '9') ∨ c = '_') := by
          simp [isWordChar] at h
          simp
          tauto
        rw [if_neg h, if_neg h']
    unfold tagKeyToLabelName spec_labelNameOfTagKey
    rw [hmap, insertCamelSep_eq_spec]
    rfl
  · intro t
    rfl
  · rfl
  · rfl

/-! ## AWS ECS data types used by the decorator and the refresh engine -/

/-- `types.NetworkInterface` (only the field the code reads). The
`PrivateIpv4Address` pointer is dereferenced with `*ip` in the refresh loop,
so a `none` there is a Go nil-pointer panic. -/
structure NetworkInterface where
  privateIpv4Address : Option String
  deriving Repr, DecidableEq

/-- `types.Container` (only the field the code reads). -/
structure Container where
  networkInterfaces : List NetworkInterface
  deriving Repr, DecidableEq

/-- `types.Task`; `TaskArn` is dereferenced unconditionally when caching, so
it is modelled as a plain value. -/
structure Task where
  taskArn : String
  containers : List Container
  deriving Repr, DecidableEq

structure ListClustersInput where
  deriving Repr, DecidableEq

structure ListClustersOutput where
  clusterArns : List String
  deriving Repr, DecidableEq

/-- `ListServicesInput`; the decorator dereferences `*params.Cluster`. -/
structure ListServicesInput where
  cluster : String
  deriving Repr, DecidableEq

structure ListServicesOutput where
  serviceArns : List String
  deriving Repr, DecidableEq

structure ListTasksInput where
  cluster : String
  serviceName : String
  deriving Repr, DecidableEq

structure ListTasksOutput where
  taskArns : List String
  deriving Repr, DecidableEq

/-- `DescribeTasksInput`: both fields are nil-checked (`params.Tasks != nil`)
or simply forwarded, so they stay `Option`. -/
structure DescribeTasksInput where
  cluster : Option String
  tasks : Option (List String)
  deriving Repr, DecidableEq

structure DescribeTasksOutput where
  tasks : List Task
  deriving Repr, DecidableEq

/-- `ListTagsForResourceInput`; the decorator dereferences
`*params.ResourceArn`. -/
structure ListTagsForResourceInput where
  resourceArn : String
  deriving Repr, DecidableEq

structure ListTagsForResourceOutput where
  tags : List Tag
  deriving Repr, DecidableEq

/-- The wrapped AWS SDK client (`ecsClient` interface): a call either fails
with an error and a nil output, or succeeds with a non-nil output, which is
the SDK's contract. -/
structure EcsClient where
  listClusters : ListClustersInput → Except GoErr ListClustersOutput
  listServices : ListServicesInput → Except GoErr ListServicesOutput
  listTasks : ListTasksInput → Except GoErr ListTasksOutput
  describeTasks : DescribeTasksInput → Except GoErr DescribeTasksOutput
  listTagsForResource : ListTagsForResourceInput → Except GoErr ListTagsForResourceOutput

/-- Split an SDK result into the Go `(value, error)` pair. -/
def toPair (r : Except GoErr α) : Option α × Option GoErr :=
  match r with
  | .ok v => (some v, none)
  | .error e => (none, some e)

/-! ## Caching decorator (discovery package, `ecsClientCache`)

The single `gocache.Cache` holds values of different pointer types behind
`any`; the sum below is the corresponding tagged union. A stored Go pointer
may itself be nil (a "typed nil" inside the `any`), hence the `Option`s. -/

/-- The dynamic type of a value stored in the decorator's cache. -/
inductive DecVal where
  | clustersOut (o : Option ListClustersOutput)
  | servicesOut (o : Option ListServicesOutput)
  | taskVal (t : Task)
  | tagsOut (o : Option ListTagsForResourceOutput)
  deriving Repr, DecidableEq

/-- The Go type assertion `.(*ecs.ListClustersOutput)`: `none` is a panic. -/
def DecVal.asClustersOut : DecVal → Option (Option ListClustersOutput)
  | .clustersOut o => some o
  | _ => none

/-- The Go type assertion `.(*ecs.ListServicesOutput)`. -/
def DecVal.asServicesOut : DecVal → Option (Option ListServicesOutput)
  | .servicesOut o => some o
  | _ => none

/-- The Go type assertion `.(*types.Task)` followed by its dereference. -/
def DecVal.asTask : DecVal → Option Task
  | .taskVal t => some t
  | _ => none

/-- The Go type assertion `.(*ecs.ListTagsForResourceOutput)`. -/
def DecVal.asTagsOut : DecVal → Option (Option ListTagsForResourceOutput)
  | .tagsOut o => some o
  | _ => none

/-- A remote invocation made by the decorator, recorded for the observability
parts of the claims ("no remote call" / "exactly one remote call"). -/
inductive RemoteCall where
  | listClusters (p : ListClustersInput)
  | listServices (p : ListServicesInput)
  | listTasks (p : ListTasksInput)
  | describeTasks (cluster : Option String) (tasks : Option (List String))
  | listTagsForResource (p : ListTagsForResourceInput)
  deriving Repr, DecidableEq

/-- Result of one decorator operation: the Go `(value, error)` pair, the
cache after the call, and the remote calls issued during it. -/
structure DecResult (α : Type) where
  value : Option α
  error : Option GoErr
  cache : Cache DecVal
  calls : List RemoteCall
  deriving Repr

/-- `NewECSCacheClient`'s cache:
`New(WithDefaultExpiration(15m), WithJanitor(30m), WithGetReturnStale())`. -/
def newEcsCacheClientCache : Cache DecVal :=
  cacheNew [cacheWithDefaultExpiration (15 * nsPerMinute),
            cacheWithJanitor (30 * nsPerMinute),
            cacheWithGetReturnStale]

/-- `ecsClientCache.ListClusters`. Note the missing early return of the Go
source: on a remote error with no usable cached value, control falls through
to `c.cache.Set("ListClusters", v, time.Hour)` with the nil `v`. The outer
`Option` is `none` when the Go code would panic on a type assertion. -/
def cacheListClusters (c : Cache DecVal) (cl : EcsClient) (now : Int)
    (params : ListClustersInput) : Option (DecResult ListClustersOutput) :=
  let (cached, ok) := c.get "ListClusters" now
  if ok then
    match cached with
    | some dv => (dv.asClustersOut).map (fun o => ⟨o, none, c, []⟩)
    | none => none
  else
    let (v, err) := toPair (cl.listClusters params)
    match err with
    | some e =>
      match cached with
      | some dv =>
        (dv.asClustersOut).map (fun o => ⟨o, none, c, [.listClusters params]⟩)
      | none =>
        some ⟨v, some e,
          c.set "ListClusters" (.clustersOut v) nsPerHour now,
          [.listClusters params]⟩
    | none =>
      some ⟨v, none,
        c.set "ListClusters" (.clustersOut v) nsPerHour now,
        [.listClusters params]⟩

/-- `ecsClientCache.ListServices`. -/
def cacheListServices (c : Cache DecVal) (cl : EcsClient) (now : Int)
    (params : ListServicesInput) : Option (DecResult ListServicesOutput) :=
  let key := "ListServices-" ++ params.cluster
  let (cached, ok) := c.get key now
  if ok then
    match cached with
    | some dv => (dv.asServicesOut).map (fun o => ⟨o, none, c, []⟩)
    | none => none
  else
    let (v, err) := toPair (cl.listServices params)
    match err with
    | some e =>
      match cached with
      | some dv =>
        (dv.asServicesOut).map (fun o => ⟨o, none, c, [.listServices params]⟩)
      | none => some ⟨v, some e, c, [.listServices params]⟩
    | none =>
      some ⟨v, none,
        c.set key (.servicesOut v) (5 * nsPerMinute) now,
        [.listServices params]⟩

/-- `ecsClientCache.ListTasks`: pure pass-through, no caching. -/
def cacheListTasks (c : Cache DecVal) (cl : EcsClient) (_now : Int)
    (params : ListTasksInput) : Option (DecResult ListTasksOutput) :=
  let (v, err) := toPair (cl.listTasks params)
  some ⟨v, err, c, [.listTasks params]⟩

/-- The partition loop of `ecsClientCache.DescribeTasks`: walk the requested
ARNs, collecting fresh cached tasks and the uncached ARNs, both in request
order; `none` when the Go code would panic on the `.(*types.Task)` type
assertion. -/
def partitionTasks (c : Cache DecVal) (now : Int) :
    List String → Option (List Task × List String)
  | [] => some ([], [])
  | arn :: rest =>
    match c.get ("DescribeTasks-" ++ arn) now with
    | (some dv, true) =>
      match dv.asTask with
      | some t => (partitionTasks c now rest).map (fun p => (t :: p.1, p.2))
      | none => none
    | (_, false) => (partitionTasks c now rest).map (fun p => (p.1, arn :: p.2))
    | (none, true) => none

/-- The caching loop of `ecsClientCache.DescribeTasks` on a successful batch
response: `SetDefault` each returned task under its own ARN key. -/
def dtFoldSet (now : Int) : Cache DecVal → List Task → Cache DecVal
  | c, [] => c
  | c, t :: rest =>
    dtFoldSet now (c.setDefault ("DescribeTasks-" ++ t.taskArn) (.taskVal t) now) rest

/-- `ecsClientCache.DescribeTasks`. -/
def cacheDescribeTasks (c : Cache DecVal) (cl : EcsClient) (now : Int)
    (params : Option DescribeTasksInput) :
    Option (DecResult DescribeTasksOutput) :=
  let arns := match params with
    | some p => p.tasks.getD []
    | none => []
  match partitionTasks c now arns with
  | none => none
  | some (cachedTasks, uncachedTasks) =>
    if uncachedTasks = [] then
      some ⟨some ⟨cachedTasks⟩, none, c, []⟩
    else
      let base := params.getD ⟨none, none⟩
      let params' : DescribeTasksInput := { base with tasks := some uncachedTasks }
      let call := RemoteCall.describeTasks params'.cluster params'.tasks
      match cl.describeTasks params' with
      | .error e => some ⟨none, some e, c, [call]⟩
      | .ok resp =>
        some ⟨some ⟨resp.tasks ++ cachedTasks⟩, none, dtFoldSet now c resp.tasks, [call]⟩

/-- `ecsClientCache.ListTagsForResource`. -/
def cacheListTagsForResource (c : Cache DecVal) (cl : EcsClient) (now : Int)
    (params : ListTagsForResourceInput) :
    Option (DecResult ListTagsForResourceOutput) :=
  let key := "ListTagsForResource-" ++ params.resourceArn
  let (cached, ok) := c.get key now
  if ok then
    match cached with
    | some dv => (dv.asTagsOut).map (fun o => ⟨o, none, c, []⟩)
    | none => none
  else
    let (v, err) := toPair (cl.listTagsForResource params)
    match err with
    | some e =>
      match cached with
      | some dv =>
        (dv.asTagsOut).map (fun o => ⟨o, none, c, [.listTagsForResource params]⟩)
      | none => some ⟨v, some e, c, [.listTagsForResource params]⟩
    | none =>
      some ⟨v, none,
        c.setDefault key (.tagsOut v) now,
        [.listTagsForResource params]⟩

/-! ### Inversion lemmas for `Cache.get` -/

theorem get_ne_none_true (c : Cache α) (k : String) (now : Int) :
    c.get k now ≠ (none, true) := by
  unfold Cache.get
  cases hfe : findEntry k c.items with
  | none => simp
  | some it =>
    by_cases hx : it.expires > 0 ∧ now > it.expires
    · cases hret : c.returnStale <;> simp [hx, hret]
    · simp [hx]

theorem get_fresh_inv (c : Cache α) (k : String) (now : Int) (dv : α)
    (h : c.get k now = (some dv, true)) :
    ∃ it, findEntry k c.items = some it ∧ it.data = dv := by
  unfold Cache.get at h
  cases hfe : findEntry k c.items with
  | none => rw [hfe] at h; simp at h
  | some it =>
    rw [hfe] at h
    by_cases hx : it.expires > 0 ∧ now > it.expires
    · cases hret : c.returnStale <;> simp [hx, hret] at h
    · simp [hx] at h
      exact ⟨it, rfl, h⟩

/-! ## Claim C3: cache entries on failed fetches (list-clusters) -/

/-- A remote client all of whose calls fail. -/
def c3Client : EcsClient :=
  { listClusters := fun _ => .error "boom",
    listServices := fun _ => .error "boom",
    listTasks := fun _ => .error "boom",
    describeTasks := fun _ => .error "boom",
    listTagsForResource := fun _ => .error "boom" }

/-- The decorator cache after one failed `ListClusters` on a fresh cache:
the nil response is stored under the global key with a one-hour TTL. -/
def c3PoisonedCache : Cache DecVal :=
  { newEcsCacheClientCache with
      items := [("ListClusters", ⟨DecVal.clustersOut none, 1000 + nsPerHour⟩)] }

/-- **C3.** The claim states that a failed remote fetch with no usable cache
entry leaves the cache unchanged, in particular for list-clusters. The code
violates this: evaluated at the failing input (fresh decorator cache, failing
remote, `now = 1000`), `ListClusters` propagates the error but *stores the
nil response* under the global key with a one-hour TTL, and a second call
within the hour then serves that nil as a fresh cache hit, returning a nil
output with a nil error and making no remote call. -/
theorem C3_listClusters_failed_fetch_stores_entry :
    cacheListClusters newEcsCacheClientCache c3Client 1000 ⟨⟩
      = some ⟨none, some "boom", c3PoisonedCache, [RemoteCall.listClusters ⟨⟩]⟩ ∧
    findEntry "ListClusters" c3PoisonedCache.items
      = some ⟨DecVal.clustersOut none, 1000 + nsPerHour⟩ ∧
    findEntry "ListClusters" newEcsCacheClientCache.items = none ∧
    cacheListClusters c3PoisonedCache c3Client 2000 ⟨⟩
      = some ⟨none, none, c3PoisonedCache, []⟩ := by
  refine ⟨rfl, rfl, rfl, ?_⟩
  have hfresh : ¬ ((1000 + nsPerHour > 0 ∧ (2000 : Int) > 1000 + nsPerHour)) := by
    simp only [nsPerHour, nsPerMinute, nsPerSecond]
    omega
  simp [cacheListClusters, Cache.get, c3PoisonedCache, newEcsCacheClientCache,
    cacheNew, cacheWithDefaultExpiration, cacheWithJanitor, cacheWithGetReturnStale,
    findEntry, hfresh, DecVal.asClustersOut]

/-! ## Claim C4: stale-on-error fallback for ListServices / ListTagsForResource -/

/-- **C4.** For the per-cluster list-services call and the per-resource
list-tags call: a fresh cache hit is served with no error and no remote call;
if the remote call fails and a stale cached value exists, that value is
returned with no error; if the remote call fails and no cache entry exists,
the error is propagated and the cache is unchanged. -/
theorem C4_stale_on_error_fallback :
    (∀ (c : Cache DecVal) (cl : EcsClient) (now : Int) (p : ListServicesInput)
       (dv : DecVal) (o : Option ListServicesOutput),
      c.get ("ListServices-" ++ p.cluster) now = (some dv, true) →
      dv.asServicesOut = some o →
      cacheListServices c cl now p = some ⟨o, none, c, []⟩) ∧
    (∀ (c : Cache DecVal) (cl : EcsClient) (now : Int) (p : ListServicesInput)
       (dv : DecVal) (o : Option ListServicesOutput) (e : GoErr),
      c.get ("ListServices-" ++ p.cluster) now = (some dv, false) →
      dv.asServicesOut = some o →
      cl.listServices p = .error e →
      cacheListServices c cl now p = some ⟨o, none, c, [.listServices p]⟩) ∧
    (∀ (c : Cache DecVal) (cl : EcsClient) (now : Int) (p : ListServicesInput)
       (e : GoErr),
      c.get ("ListServices-" ++ p.cluster) now = (none, false) →
      cl.listServices p = .error e →
      cacheListServices c cl now p = some ⟨none, some e, c, [.listServices p]⟩) ∧
    (∀ (c : Cache DecVal) (cl : EcsClient) (now : Int) (p : ListTagsForResourceInput)
       (dv : DecVal) (o : Option ListTagsForResourceOutput),
      c.get ("ListTagsForResource-" ++ p.resourceArn) now = (some dv, true) →
      dv.asTagsOut = some o →
      cacheListTagsForResource c cl now p = some ⟨o, none, c, []⟩) ∧
    (∀ (c : Cache DecVal) (cl : EcsClient) (now : Int) (p : ListTagsForResourceInput)
       (dv : DecVal) (o : Option ListTagsForResourceOutput) (e : GoErr),
      c.get ("ListTagsForResource-" ++ p.resourceArn) now = (some dv, false) →
      dv.asTagsOut = some o →
      cl.listTagsForResource p = .error e →
      cacheListTagsForResource c cl now p
        = some ⟨o, none, c, [.listTagsForResource p]⟩) ∧
    (∀ (c : Cache DecVal) (cl : EcsClient) (now : Int) (p : ListTagsForResourceInput)
       (e : GoErr),
      c.get ("ListTagsForResource-" ++ p.resourceArn) now = (none, false) →
      cl.listTagsForResource p = .error e →
      cacheListTagsForResource c cl now p
        = some ⟨none, some e, c, [.listTagsForResource p]⟩) := by
  refine ⟨?_, ?_, ?_, ?_, ?_, ?_⟩
  · intro c cl now p dv o hget hdv
    simp [cacheListServices, hget, hdv]
  · intro c cl now p dv o e hget hdv hcl
    simp [cacheListServices, hget, hdv, hcl, toPair]
  · intro c cl now p e hget hcl
    simp [cacheListServices, hget, hcl, toPair]
  · intro c cl now p dv o hget hdv
    simp [cacheListTagsForResource, hget, hdv]
  · intro c cl now p dv o e hget hdv hcl
    simp [cacheListTagsForResource, hget, hdv, hcl, toPair]
  · intro c cl now p e hget hcl
    simp [cacheListTagsForResource, hget, hcl, toPair]

/-- A decorator cache holding a stale services entry and a stale tags entry
(both expired at instant 100, stale-serving enabled). -/
def c4StaleCache : Cache DecVal :=
  { newEcsCacheClientCache with
      items := [("ListServices-c1", ⟨DecVal.servicesOut (some ⟨["s1"]⟩), 50⟩),
                ("ListTagsForResource-r1", ⟨DecVal.tagsOut (some ⟨[⟨"k", "v"⟩]⟩), 50⟩)] }

/-- Witness for C4 at concrete inputs. -/
theorem C4_stale_on_error_fallback_witness :
    cacheListServices c4StaleCache c3Client 100 ⟨"c1"⟩
      = some ⟨some ⟨["s1"]⟩, none, c4StaleCache, [.listServices ⟨"c1"⟩]⟩ ∧
    cacheListServices c4StaleCache c3Client 100 ⟨"c9"⟩
      = some ⟨none, some "boom", c4StaleCache, [.listServices ⟨"c9"⟩]⟩ ∧
    cacheListTagsForResource c4StaleCache c3Client 100 ⟨"r1"⟩
      = some ⟨some ⟨[⟨"k", "v"⟩]⟩, none, c4StaleCache, [.listTagsForResource ⟨"r1"⟩]⟩ ∧
    cacheListTagsForResource c4StaleCache c3Client 100 ⟨"r9"⟩
      = some ⟨none, some "boom", c4StaleCache, [.listTagsForResource ⟨"r9"⟩]⟩ := by
  refine ⟨?_, ?_, ?_, ?_⟩
  · exact C4_stale_on_error_fallback.2.1 c4StaleCache c3Client 100 ⟨"c1"⟩
      (DecVal.servicesOut (some ⟨["s1"]⟩)) (some ⟨["s1"]⟩) "boom" (by decide) rfl rfl
  · exact C4_stale_on_error_fallback.2.2.1 c4StaleCache c3Client 100 ⟨"c9"⟩ "boom"
      (by decide) rfl
  · exact C4_stale_on_error_fallback.2.2.2.2.1 c4StaleCache c3Client 100 ⟨"r1"⟩
      (DecVal.tagsOut (some ⟨[⟨"k", "v"⟩]⟩)) (some ⟨[⟨"k", "v"⟩]⟩) "boom" (by decide) rfl rfl
  · exact C4_stale_on_error_fallback.2.2.2.2.2 c4StaleCache c3Client 100 ⟨"r9"⟩ "boom"
      (by decide) rfl

/-! ## Claim C10: DescribeTasks with a nil request or empty task list -/

/-- **C10.** `DescribeTasks` through the decorator with a nil request, a nil
task-ARN list, or an empty task-ARN list returns an output with an empty task
list and a nil error, leaves the cache unchanged, and issues no remote
call. -/
theorem C10_describe_tasks_empty_request :
    (∀ (c : Cache DecVal) (cl : EcsClient) (now : Int),
      cacheDescribeTasks c cl now none = some ⟨some ⟨[]⟩, none, c, []⟩) ∧
    (∀ (c : Cache DecVal) (cl : EcsClient) (now : Int) (clus : Option String),
      cacheDescribeTasks c cl now (some ⟨clus, none⟩)
        = some ⟨some ⟨[]⟩, none, c, []⟩) ∧
    (∀ (c : Cache DecVal) (cl : EcsClient) (now : Int) (clus : Option String),
      cacheDescribeTasks c cl now (some ⟨clus, some []⟩)
        = some ⟨some ⟨[]⟩, none, c, []⟩) :=
  ⟨fun _ _ _ => rfl, fun _ _ _ _ => rfl, fun _ _ _ _ => rfl⟩

/-! ## Claim C2: DescribeTasks batching -/

/-- Spec-level view of the partition: the task served from cache for a
requested ARN, when its entry is a fresh hit. -/
def hitTask (c : Cache DecVal) (now : Int) (a : String) : Option Task :=
  match c.get ("DescribeTasks-" ++ a) now with
  | (some dv, true) => dv.asTask
  | _ => none

/-- Well-typedness of the DescribeTasks namespace of the decorator cache:
every entry under a "DescribeTasks-" key holds a task value (the decorator
only ever stores tasks there, so the Go type assertion cannot panic). -/
def DtCacheWF (c : Cache DecVal) : Prop :=
  ∀ (a : String) (it : CacheItem DecVal),
    findEntry ("DescribeTasks-" ++ a) c.items = some it →
    ∃ t : Task, it.data = DecVal.taskVal t

theorem stringConcat_left_cancel (s : String) {a b : String}
    (h : s ++ a = s ++ b) : a = b := by
  have h2 : s.data ++ a.data = s.data ++ b.data := by
    have h1 := congrArg String.data h
    simpa [String.data_append] using h1
  have h3 : a.data = b.data := List.append_cancel_left h2
  cases a
  cases b
  exact congrArg String.mk h3

/-- The single-pass partition loop computes the spec-level filterMap/filter
partition of the requested ARNs into fresh-cached tasks and uncached ARNs. -/
theorem partitionTasks_eq (c : Cache DecVal) (now : Int) (hwf : DtCacheWF c)
    (arns : List String) :
    partitionTasks c now arns
      = some (arns.filterMap (hitTask c now),
              arns.filter (fun a => !(c.get ("DescribeTasks-" ++ a) now).2)) := by
  induction arns with
  | nil => rfl
  | cons a rest ih =>
    cases hg : c.get ("DescribeTasks-" ++ a) now with
    | mk v b =>
      cases b with
      | false =>
        have hh : hitTask c now a = none := by
          cases v <;> simp [hitTask, hg]
        cases v with
        | none => simp [partitionTasks, hg, ih, hh]
        | some dv => simp [partitionTasks, hg, ih, hh]
      | true =>
        cases v with
        | none => exact absurd hg (get_ne_none_true c _ now)
        | some dv =>
          obtain ⟨it, hfe, hdata⟩ := get_fresh_inv c _ now dv hg
          obtain ⟨t, ht⟩ := hwf a it hfe
          have hdt : dv.asTask = some t := by rw [← hdata, ht]; rfl
          have hh : hitTask c now a = some t := by simp [hitTask, hg, hdt]
          simp [partitionTasks, hg, ih, hh, hdt]

theorem dtFoldSet_defaultExpiration (now : Int) (l : List Task) :
    ∀ c : Cache DecVal,
      (dtFoldSet now c l).defaultExpiration = c.defaultExpiration := by
  induction l with
  | nil => intro c; rfl
  | cons t rest ih =>
    intro c
    simp only [dtFoldSet]
    rw [ih]
    rfl

/-- Keys outside the freshly cached tasks are untouched by the caching
loop. -/
theorem dtFoldSet_findEntry_other (now : Int) (l : List Task) (k : String) :
    ∀ c : Cache DecVal, (∀ t ∈ l, k ≠ "DescribeTasks-" ++ t.taskArn) →
      findEntry k (dtFoldSet now c l).items = findEntry k c.items := by
  induction l with
  | nil => intro c _; rfl
  | cons t rest ih =>
    intro c h
    simp only [dtFoldSet, Cache.setDefault]
    rw [ih _ (fun u hu => h u (List.mem_cons_of_mem _ hu))]
    exact findEntry_set_other c _ k (h t (List.mem_cons_self _ _)) _ _ _

/-- Every task of the batch response ends up cached under its own ARN key
with the cache's default TTL. -/
theorem dtFoldSet_findEntry_mem (now : Int) (l : List Task) (t : Task) :
    ∀ c : Cache DecVal, (l.map Task.taskArn).Nodup → t ∈ l →
      findEntry ("DescribeTasks-" ++ t.taskArn) (dtFoldSet now c l).items
        = some ⟨DecVal.taskVal t,
            if c.defaultExpiration > 0 then now + c.defaultExpiration else 0⟩ := by
  induction l with
  | nil => intro c _ ht; cases ht
  | cons u rest ih =>
    intro c hnd ht
    have hnd' : (u.taskArn :: rest.map Task.taskArn).Nodup := by
      rw [← List.map_cons]
      exact hnd
    have hhead := (List.nodup_cons.mp hnd').1
    have htail := (List.nodup_cons.mp hnd').2
    rcases List.mem_cons.mp ht with rfl | hmem
    · have hnotin : ∀ v ∈ rest,
          ("DescribeTasks-" ++ t.taskArn) ≠ ("DescribeTasks-" ++ v.taskArn) := by
        intro v hv heq
        exact hhead (by
          rw [stringConcat_left_cancel _ heq]
          exact List.mem_map_of_mem _ hv)
      simp only [dtFoldSet, Cache.setDefault]
      rw [dtFoldSet_findEntry_other now rest _ _ hnotin, findEntry_set_self]
    · simp only [dtFoldSet, Cache.setDefault]
      rw [ih _ htail hmem]
      rfl

/-- **C2.** DescribeTasks batching: the requested ARNs are partitioned into
fresh-cached tasks and uncached ARNs; if every ARN is cached the cached
tasks are returned with no remote call; otherwise exactly one remote call is
issued containing only the uncached ARNs; on success each returned task is
cached under its own ARN key with the default TTL (other keys untouched) and
the result is the union of fetched and cached tasks; on failure the error is
returned without merging the cached subset and the cache is unchanged. -/
theorem C2_describe_tasks_batching :
    ∀ (c : Cache DecVal) (cl : EcsClient) (now : Int) (p : DescribeTasksInput)
      (arns : List String),
      DtCacheWF c → p.tasks = some arns →
      ((arns.filter (fun a => !(c.get ("DescribeTasks-" ++ a) now).2) = [] →
        cacheDescribeTasks c cl now (some p)
          = some ⟨some ⟨arns.filterMap (hitTask c now)⟩, none, c, []⟩) ∧
      (∀ e, arns.filter (fun a => !(c.get ("DescribeTasks-" ++ a) now).2) ≠ [] →
        cl.describeTasks ⟨p.cluster,
          some (arns.filter (fun a => !(c.get ("DescribeTasks-" ++ a) now).2))⟩
          = .error e →
        cacheDescribeTasks c cl now (some p)
          = some ⟨none, some e, c,
              [.describeTasks p.cluster
                (some (arns.filter (fun a => !(c.get ("DescribeTasks-" ++ a) now).2)))]⟩) ∧
      (∀ resp, arns.filter (fun a => !(c.get ("DescribeTasks-" ++ a) now).2) ≠ [] →
        cl.describeTasks ⟨p.cluster,
          some (arns.filter (fun a => !(c.get ("DescribeTasks-" ++ a) now).2))⟩
          = .ok resp →
        (cacheDescribeTasks c cl now (some p)
            = some ⟨some ⟨resp.tasks ++ arns.filterMap (hitTask c now)⟩, none,
                dtFoldSet now c resp.tasks,
                [.describeTasks p.cluster
                  (some (arns.filter (fun a => !(c.get ("DescribeTasks-" ++ a) now).2)))]⟩ ∧
          ((resp.tasks.map Task.taskArn).Nodup →
            ∀ t ∈ resp.tasks,
              findEntry ("DescribeTasks-" ++ t.taskArn) (dtFoldSet now c resp.tasks).items
                = some ⟨DecVal.taskVal t,
                    if c.defaultExpiration > 0 then now + c.defaultExpiration else 0⟩) ∧
          (∀ k, (∀ t ∈ resp.tasks, k ≠ "DescribeTasks-" ++ t.taskArn) →
            findEntry k (dtFoldSet now c resp.tasks).items = findEntry k c.items)))) := by
  intro c cl now p arns hwf hp
  refine ⟨?_, ?_, ?_⟩
  · intro hempty
    simp only [cacheDescribeTasks, hp, Option.getD_some,
      partitionTasks_eq c now hwf arns, hempty]
    simp
  · intro e hne hcl
    simp only [cacheDescribeTasks, hp, Option.getD_some,
      partitionTasks_eq c now hwf arns]
    simp only [if_neg hne]
    rw [show (⟨p.cluster, some (arns.filter
          (fun a => !(c.get ("DescribeTasks-" ++ a) now).2))⟩ : DescribeTasksInput)
        = { p with tasks := some (arns.filter
          (fun a => !(c.get ("DescribeTasks-" ++ a) now).2)) } from rfl] at hcl
    simp [hcl]
  · intro resp hne hcl
    refine ⟨?_, ?_, ?_⟩
    · simp only [cacheDescribeTasks, hp, Option.getD_some,
        partitionTasks_eq c now hwf arns]
      simp only [if_neg hne]
      rw [show (⟨p.cluster, some (arns.filter
            (fun a => !(c.get ("DescribeTasks-" ++ a) now).2))⟩ : DescribeTasksInput)
          = { p with tasks := some (arns.filter
            (fun a => !(c.get ("DescribeTasks-" ++ a) now).2)) } from rfl] at hcl
      simp [hcl]
    · intro hnd t ht
      exact dtFoldSet_findEntry_mem now resp.tasks t c hnd ht
    · intro k hk
      exact dtFoldSet_findEntry_other now resp.tasks k c hk

/-- Concrete tasks for the C2 witness (the spec's 3-ARN batching test). -/
def taskA : Task := ⟨"arnA", []⟩

def taskB : Task := ⟨"arnB", []⟩

def taskC : Task := ⟨"arnC", []⟩

/-- Decorator cache with two fresh immortal task entries. -/
def c2Cache : Cache DecVal :=
  { newEcsCacheClientCache with
      items := [("DescribeTasks-arnA", ⟨DecVal.taskVal taskA, 0⟩),
                ("DescribeTasks-arnB", ⟨DecVal.taskVal taskB, 0⟩)] }

/-- Remote client whose DescribeTasks always returns task C. -/
def c2Client : EcsClient :=
  { listClusters := fun _ => .error "nope",
    listServices := fun _ => .error "nope",
    listTasks := fun _ => .error "nope",
    describeTasks := fun _ => .ok ⟨[taskC]⟩,
    listTagsForResource := fun _ => .error "nope" }

theorem c2CacheWF : DtCacheWF c2Cache := by
  intro a it h
  simp only [c2Cache, findEntry] at h
  by_cases h1 : "DescribeTasks-arnA" = "DescribeTasks-" ++ a
  · rw [if_pos h1] at h
    injection h with h2
    exact ⟨taskA, by rw [← h2]⟩
  · rw [if_neg h1] at h
    by_cases h2 : "DescribeTasks-arnB" = "DescribeTasks-" ++ a
    · rw [if_pos h2] at h
      injection h with h3
      exact ⟨taskB, by rw [← h3]⟩
    · rw [if_neg h2] at h
      exact absurd h (by simp)

/-- Witness for C2: three requested ARNs, two cached and one not; exactly one
remote call carrying only the uncached ARN; the result is the union; the
fetched task is cached under its own key with the 15-minute default TTL and
the other keys are untouched. -/
theorem C2_describe_tasks_batching_witness :
    cacheDescribeTasks c2Cache c2Client 100 (some ⟨none, some ["arnA", "arnC", "arnB"]⟩)
      = some ⟨some ⟨[taskC, taskA, taskB]⟩, none, dtFoldSet 100 c2Cache [taskC],
          [.describeTasks none (some ["arnC"])]⟩ ∧
    findEntry "DescribeTasks-arnC" (dtFoldSet 100 c2Cache [taskC]).items
      = some ⟨DecVal.taskVal taskC, 100 + 15 * nsPerMinute⟩ ∧
    findEntry "DescribeTasks-arnA" (dtFoldSet 100 c2Cache [taskC]).items
      = findEntry "DescribeTasks-arnA" c2Cache.items := by
  have h := (C2_describe_tasks_batching c2Cache c2Client 100
      ⟨none, some ["arnA", "arnC", "arnB"]⟩ ["arnA", "arnC", "arnB"]
      c2CacheWF rfl).2.2 ⟨[taskC]⟩ (by decide) rfl
  refine ⟨h.1, ?_, ?_⟩
  · exact h.2.1 (by decide) taskC (by decide)
  · exact h.2.2 "DescribeTasks-arnA" (by decide)

/-! ## Discovery engine (discovery `Run` / `refresh`)

`refresh` calls through the `ecsClient` interface; the client it sees is
modelled as a bundle of functions returning Go `(value, error)` pairs, so the
theorems quantify over any client behaviour (raw SDK or caching decorator).
A nil output together with a nil error makes the Go code dereference a nil
pointer; that outcome is the explicit `panic` result. -/

/-- The client interface as seen by `refresh`. -/
structure RClient where
  listClusters : ListClustersInput → Option ListClustersOutput × Option GoErr
  listServices : ListServicesInput → Option ListServicesOutput × Option GoErr
  listTasks : ListTasksInput → Option ListTasksOutput × Option GoErr
  describeTasks : Option DescribeTasksInput → Option DescribeTasksOutput × Option GoErr
  listTagsForResource : ListTagsForResourceInput → Option ListTagsForResourceOutput × Option GoErr

/-- Outcome of a fragment of the refresh traversal. -/
inductive GoStep (α : Type) where
  | ok (v : α)
  | err (e : GoErr)
  | panic
  deriving Repr

/-- `arn[strings.LastIndex(arn, "/")+1:]`: the substring after the last
slash, or the whole string when there is none. -/
def lastSegment (s : String) : String :=
  String.mk ((s.toList.reverse.takeWhile (fun c => c ≠ '/')).reverse)

/-- `model.AddressLabel`. -/
def addressLabel : String := "__address__"

/-- `targetgroup.Group` (the fields the code sets). -/
structure TargetGroup where
  source : String
  labels : LabelSet
  targets : List LabelSet
  deriving Repr, DecidableEq

/-- The target-building loop of `refresh`: skip a task whose containers list
is empty or whose *first* container has no network interfaces; otherwise
dereference the first interface's private IPv4 address (`*ip`, panicking on
nil) and emit an address label set. -/
def buildTargets : List Task → GoStep (List LabelSet)
  | [] => .ok []
  | t :: rest =>
    match t.containers with
    | [] => buildTargets rest
    | c0 :: _ =>
      match c0.networkInterfaces with
      | [] => buildTargets rest
      | ni :: _ =>
        match ni.privateIpv4Address with
        | none => .panic
        | some ip =>
          match buildTargets rest with
          | .ok ls => .ok ([(addressLabel, ip)] :: ls)
          | .err e => .err e
          | .panic => .panic

/-- The body of `refresh`'s inner service loop for one service ARN:
list the service's tasks, describe them, list the service's tags, then build
one TargetGroup. -/
def processService (cl : RClient) (cluster clusterName service : String) :
    GoStep TargetGroup :=
  let serviceName := lastSegment service
  match cl.listTasks ⟨cluster, service⟩ with
  | (_, some e) => .err e
  | (none, none) => .panic
  | (some taskList, none) =>
    match cl.describeTasks (some ⟨some cluster, some taskList.taskArns⟩) with
    | (_, some e) => .err e
    | (none, none) => .panic
    | (some tasks, none) =>
      match cl.listTagsForResource ⟨service⟩ with
      | (_, some e) => .err e
      | (none, none) => .panic
      | (some tags, none) =>
        match buildTargets tasks.tasks with
        | .ok targets =>
          .ok { source := clusterName ++ "/" ++ serviceName,
                labels := lsMerge (tagsToLabelSet tags.tags)
                  [(labelClusterName, clusterName), (labelServiceName, serviceName)],
                targets := targets }
        | .err e => .err e
        | .panic => .panic

/-- The inner service loop of `refresh` over a cluster's service ARNs. -/
def processServices (cl : RClient) (cluster clusterName : String) :
    List String → GoStep (List TargetGroup)
  | [] => .ok []
  | s :: rest =>
    match processService cl cluster clusterName s with
    | .ok tg =>
      match processServices cl cluster clusterName rest with
      | .ok tgs => .ok (tg :: tgs)
      | r => r
    | .err e => .err e
    | .panic => .panic

/-- The body of `refresh`'s outer loop for one cluster ARN: derive the
cluster name, list its services, process each. -/
def processCluster (cl : RClient) (cluster : String) : GoStep (List TargetGroup) :=
  let clusterName := lastSegment cluster
  match cl.listServices ⟨cluster⟩ with
  | (_, some e) => .err e
  | (none, none) => .panic
  | (some services, none) =>
    processServices cl cluster clusterName services.serviceArns

/-- The outer cluster loop of `refresh`, accumulating target groups. -/
def processClusters (cl : RClient) : List String → GoStep (List TargetGroup)
  | [] => .ok []
  | c :: rest =>
    match processCluster cl c with
    | .ok tgs =>
      match processClusters cl rest with
      | .ok more => .ok (tgs ++ more)
      | r => r
    | .err e => .err e
    | .panic => .panic

/-- discovery `refresh`. -/
def refresh (cl : RClient) : GoStep (List TargetGroup) :=
  match cl.listClusters ⟨⟩ with
  | (_, some e) => .err e
  | (none, none) => .panic
  | (some clusters, none) => processClusters cl clusters.clusterArns

/-- What one iteration of `Run`'s loop sends on the output channel: the
refresh result on success, nothing on a refresh error (the error is only
logged). -/
def runTickEmit (cl : RClient) : Option (List TargetGroup) :=
  match refresh cl with
  | .ok tgs => some tgs
  | _ => none

/-- The sequence of emissions of `Run` over successive ticks (the remote
world may differ per tick, hence one client per tick): a failed refresh
emits nothing and the loop continues with the next tick; a panic kills the
process. -/
def runTicks : List RClient → List (List TargetGroup)
  | [] => []
  | cl :: rest =>
    match refresh cl with
    | .ok tgs => tgs :: runTicks rest
    | .err _ => runTicks rest
    | .panic => []

/-! ## Claim C5: tick-wide abort on hard failure -/

/-- If every cluster before `cArn` processes successfully and `cArn`'s
processing fails with `e`, the whole cluster loop fails with `e`. -/
theorem processClusters_append_err (cl : RClient) (pre : List String)
    (cArn : String) (post : List String) (e : GoErr)
    (hpre : ∀ c' ∈ pre, ∃ tgs, processCluster cl c' = .ok tgs)
    (hc : processCluster cl cArn = .err e) :
    processClusters cl (pre ++ cArn :: post) = .err e := by
  induction pre with
  | nil => simp [processClusters, hc]
  | cons c0 rest ih =>
    obtain ⟨tgs0, h0⟩ := hpre c0 (List.mem_cons_self _ _)
    have hrec := ih (fun c' h' => hpre c' (List.mem_cons_of_mem _ h'))
    simp [processClusters, h0, hrec]

/-- **C5.** Tick-wide abort on hard failure: if the list-clusters call
fails, or if some cluster's list-services call fails while every earlier
cluster processed successfully, then the refresh returns that error and
produces no target groups, the tick emits nothing on the output channel
(the previous emission sequence is unchanged), and the engine stays alive:
the remaining ticks still run and emit. -/
theorem C5_tick_abort_on_hard_failure :
    (∀ (cl : RClient) (v : Option ListClustersOutput) (e : GoErr)
       (rest : List RClient),
      cl.listClusters ⟨⟩ = (v, some e) →
      refresh cl = .err e ∧ runTickEmit cl = none ∧
      runTicks (cl :: rest) = runTicks rest) ∧
    (∀ (cl : RClient) (co : ListClustersOutput) (pre : List String)
       (cArn : String) (post : List String) (v : Option ListServicesOutput)
       (e : GoErr) (rest : List RClient),
      cl.listClusters ⟨⟩ = (some co, none) →
      co.clusterArns = pre ++ cArn :: post →
      (∀ c' ∈ pre, ∃ tgs, processCluster cl c' = .ok tgs) →
      cl.listServices ⟨cArn⟩ = (v, some e) →
      refresh cl = .err e ∧ runTickEmit cl = none ∧
      runTicks (cl :: rest) = runTicks rest) := by
  constructor
  · intro cl v e rest h
    have hr : refresh cl = .err e := by
      cases v <;> simp [refresh, h]
    refine ⟨hr, ?_, ?_⟩
    · simp [runTickEmit, hr]
    · simp [runTicks, hr]
  · intro cl co pre cArn post v e rest hlc harns hpre hsvc
    have hc : processCluster cl cArn = .err e := by
      cases v <;> simp [processCluster, hsvc]
    have hr : refresh cl = .err e := by
      simp [refresh, hlc, harns, processClusters_append_err cl pre cArn post e hpre hc]
    refine ⟨hr, ?_, ?_⟩
    · simp [runTickEmit, hr]
    · simp [runTicks, hr]

/-- Fully failing tick client. -/
def c5FailClient : RClient :=
  { listClusters := fun _ => (none, some "boom"),
    listServices := fun _ => (none, some "boom"),
    listTasks := fun _ => (none, some "boom"),
    describeTasks := fun _ => (none, some "boom"),
    listTagsForResource := fun _ => (none, some "boom") }

/-- Fully succeeding tick client: one cluster, one service, no tasks. -/
def c5OkClient : RClient :=
  { listClusters := fun _ => (some ⟨["arn/c1"]⟩, none),
    listServices := fun _ => (some ⟨["arn/s1"]⟩, none),
    listTasks := fun _ => (some ⟨[]⟩, none),
    describeTasks := fun _ => (some ⟨[]⟩, none),
    listTagsForResource := fun _ => (some ⟨[]⟩, none) }

/-- Client whose first cluster succeeds and whose second cluster's
list-services call fails. -/
def c5GoodBadClient : RClient :=
  { listClusters := fun _ => (some ⟨["arn/c1", "arn/c2"]⟩, none),
    listServices := fun p =>
      if p.cluster = "arn/c1" then (some ⟨["arn/s1"]⟩, none)
      else (none, some "svcfail"),
    listTasks := fun _ => (some ⟨[]⟩, none),
    describeTasks := fun _ => (some ⟨[]⟩, none),
    listTagsForResource := fun _ => (some ⟨[]⟩, none) }

/-- Witness for C5 at concrete inputs: a failing first tick emits nothing
and the following successful tick still emits; a mid-list services failure
aborts the whole tick even though the first cluster succeeded. -/
theorem C5_tick_abort_on_hard_failure_witness :
    (refresh c5FailClient = .err "boom" ∧ runTickEmit c5FailClient = none ∧
      runTicks [c5FailClient, c5OkClient] = runTicks [c5OkClient]) ∧
    (refresh c5GoodBadClient = .err "svcfail" ∧
      runTickEmit c5GoodBadClient = none ∧
      runTicks [c5GoodBadClient] = runTicks []) ∧
    runTicks [c5OkClient]
      = [[⟨"c1/s1",
           [(labelServiceName, "s1"), (labelClusterName, "c1")], []⟩]] := by
  refine ⟨?_, ?_, rfl⟩
  · exact C5_tick_abort_on_hard_failure.1 c5FailClient none "boom" [c5OkClient] rfl
  · exact C5_tick_abort_on_hard_failure.2 c5GoodBadClient ⟨["arn/c1", "arn/c2"]⟩
      ["arn/c1"] "arn/c2" [] none "svcfail" [] rfl rfl
      (by
        intro c' h'
        simp only [List.mem_singleton] at h'
        subst h'
        exact ⟨_, rfl⟩)
      rfl

/-! ## Claims C8 / C9: shape of the built TargetGroups -/

theorem findEntry_lsInsert_self (ls : LabelSet) (k v : String) :
    findEntry k (lsInsert ls k v) = some v := by
  simp [lsInsert, findEntry]

theorem findEntry_lsInsert_other (ls : LabelSet) (k k' v : String) (h : k' ≠ k) :
    findEntry k' (lsInsert ls k v) = findEntry k' ls := by
  simp only [lsInsert, findEntry, if_neg (Ne.symm h)]
  exact findEntry_removeEntry_other k k' h ls

/-- The cluster-name and service-name labels always resolve in the merged
label set, whatever the tag-derived labels were (the merge argument wins). -/
theorem findEntry_mergedLabels (base : LabelSet) (cn sn : String) :
    findEntry labelClusterName
        (lsMerge base [(labelClusterName, cn), (labelServiceName, sn)]) = some cn ∧
    findEntry labelServiceName
        (lsMerge base [(labelClusterName, cn), (labelServiceName, sn)]) = some sn := by
  constructor
  · show findEntry labelClusterName
        (lsInsert (lsInsert base labelClusterName cn) labelServiceName sn) = some cn
    rw [findEntry_lsInsert_other _ _ _ _ (by decide), findEntry_lsInsert_self]
  · show findEntry labelServiceName
        (lsInsert (lsInsert base labelClusterName cn) labelServiceName sn) = some sn
    rw [findEntry_lsInsert_self]

/-- Inversion of a successful `processService`: all three remote calls
succeeded and the TargetGroup has the built shape. -/
theorem processService_ok_inv (cl : RClient) (cluster clusterName s : String)
    (tg : TargetGroup) (h : processService cl cluster clusterName s = .ok tg) :
    ∃ (tl : ListTasksOutput) (dt : DescribeTasksOutput)
      (tago : ListTagsForResourceOutput),
      cl.listTasks ⟨cluster, s⟩ = (some tl, none) ∧
      cl.describeTasks (some ⟨some cluster, some tl.taskArns⟩) = (some dt, none) ∧
      cl.listTagsForResource ⟨s⟩ = (some tago, none) ∧
      buildTargets dt.tasks = .ok tg.targets ∧
      tg.source = clusterName ++ "/" ++ lastSegment s ∧
      tg.labels = lsMerge (tagsToLabelSet tago.tags)
        [(labelClusterName, clusterName), (labelServiceName, lastSegment s)] := by
  simp only [processService] at h
  split at h
  · exact GoStep.noConfusion h
  · exact GoStep.noConfusion h
  · rename_i tl htl
    split at h
    · exact GoStep.noConfusion h
    · exact GoStep.noConfusion h
    · rename_i dt hdt
      split at h
      · exact GoStep.noConfusion h
      · exact GoStep.noConfusion h
      · rename_i tago htago
        split at h
        · rename_i targets hbt
          injection h with h'
          subst h'
          exact ⟨tl, dt, tago, htl, hdt, htago, hbt, rfl, rfl⟩
        · exact GoStep.noConfusion h
        · exact GoStep.noConfusion h

/-- Every TargetGroup of a successful inner service loop comes from a
successful `processService` on one of the listed service ARNs. -/
theorem processServices_mem (cl : RClient) (cluster clusterName : String) :
    ∀ (arns : List String) (tgs : List TargetGroup),
      processServices cl cluster clusterName arns = .ok tgs →
      ∀ tg ∈ tgs, ∃ s ∈ arns, processService cl cluster clusterName s = .ok tg := by
  intro arns
  induction arns with
  | nil =>
    intro tgs h tg htg
    simp only [processServices] at h
    injection h with h'
    subst h'
    cases htg
  | cons s rest ih =>
    intro tgs h tg htg
    simp only [processServices] at h
    cases hs : processService cl cluster clusterName s with
    | ok tg0 =>
      rw [hs] at h
      cases hrec : processServices cl cluster clusterName rest with
      | ok tgs' =>
        rw [hrec] at h
        simp only [] at h
        injection h with h'
        subst h'
        rcases List.mem_cons.mp htg with rfl | hmem
        · exact ⟨s, List.mem_cons_self _ _, hs⟩
        · obtain ⟨s', hs', h''⟩ := ih tgs' hrec tg hmem
          exact ⟨s', List.mem_cons_of_mem _ hs', h''⟩
      | err e => rw [hrec] at h; exact GoStep.noConfusion h
      | panic => rw [hrec] at h; exact GoStep.noConfusion h
    | err e => rw [hs] at h; exact GoStep.noConfusion h
    | panic => rw [hs] at h; exact GoStep.noConfusion h

/-- Inversion of a successful `processCluster`. -/
theorem processCluster_ok_inv (cl : RClient) (cluster : String)
    (tgs : List TargetGroup) (h : processCluster cl cluster = .ok tgs) :
    ∃ so : ListServicesOutput,
      cl.listServices ⟨cluster⟩ = (some so, none) ∧
      processServices cl cluster (lastSegment cluster) so.serviceArns = .ok tgs := by
  simp only [processCluster] at h
  split at h
  · exact GoStep.noConfusion h
  · exact GoStep.noConfusion h
  · rename_i so hso
    exact ⟨so, hso, h⟩

/-- Every TargetGroup of a successful outer cluster loop comes from a
successful `processCluster` on one of the listed cluster ARNs. -/
theorem processClusters_mem (cl : RClient) :
    ∀ (arns : List String) (tgs : List TargetGroup),
      processClusters cl arns = .ok tgs →
      ∀ tg ∈ tgs, ∃ c ∈ arns, ∃ tgsc,
        processCluster cl c = .ok tgsc ∧ tg ∈ tgsc := by
  intro arns
  induction arns with
  | nil =>
    intro tgs h tg htg
    simp only [processClusters] at h
    injection h with h'
    subst h'
    cases htg
  | cons c rest ih =>
    intro tgs h tg htg
    simp only [processClusters] at h
    cases hc : processCluster cl c with
    | ok tgsc =>
      rw [hc] at h
      cases hrec : processClusters cl rest with
      | ok more =>
        rw [hrec] at h
        injection h with h'
        subst h'
        rcases List.mem_append.mp htg with hmem | hmem
        · exact ⟨c, List.mem_cons_self _ _, tgsc, hc, hmem⟩
        · obtain ⟨c', hc', tgsc', h1, h2⟩ := ih more hrec tg hmem
          exact ⟨c', List.mem_cons_of_mem _ hc', tgsc', h1, h2⟩
      | err e => rw [hrec] at h; exact GoStep.noConfusion h
      | panic => rw [hrec] at h; exact GoStep.noConfusion h
    | err e => rw [hc] at h; exact GoStep.noConfusion h
    | panic => rw [hc] at h; exact GoStep.noConfusion h

/-- Inversion of a successful `refresh`. -/
theorem refresh_ok_inv (cl : RClient) (tgs : List TargetGroup)
    (h : refresh cl = .ok tgs) :
    ∃ co : ListClustersOutput,
      cl.listClusters ⟨⟩ = (some co, none) ∧
      processClusters cl co.clusterArns = .ok tgs := by
  simp only [refresh] at h
  split at h
  · exact GoStep.noConfusion h
  · exact GoStep.noConfusion h
  · rename_i co hco
    exact ⟨co, hco, h⟩

/-- **C8.** Every TargetGroup built by a successful refresh comes from a
listed cluster ARN and a listed service ARN; its source is
`lastSegment clusterArn ++ "/" ++ lastSegment serviceArn`; and its labels
always resolve the cluster-name and service-name labels to those names
(so they are present even with no tags, and win over tag-derived labels on
any collision, since the merge overlay wins). -/
theorem C8_target_group_identity_and_labels :
    ∀ (cl : RClient) (tgs : List TargetGroup), refresh cl = .ok tgs →
      ∀ tg ∈ tgs, ∃ (co : ListClustersOutput) (cArn : String)
        (so : ListServicesOutput) (sArn : String),
        cl.listClusters ⟨⟩ = (some co, none) ∧ cArn ∈ co.clusterArns ∧
        cl.listServices ⟨cArn⟩ = (some so, none) ∧ sArn ∈ so.serviceArns ∧
        tg.source = lastSegment cArn ++ "/" ++ lastSegment sArn ∧
        findEntry labelClusterName tg.labels = some (lastSegment cArn) ∧
        findEntry labelServiceName tg.labels = some (lastSegment sArn) := by
  intro cl tgs h tg htg
  obtain ⟨co, hco, hpcs⟩ := refresh_ok_inv cl tgs h
  obtain ⟨cArn, hcmem, tgsc, hpc, htgc⟩ := processClusters_mem cl co.clusterArns tgs hpcs tg htg
  obtain ⟨so, hso, hpss⟩ := processCluster_ok_inv cl cArn tgsc hpc
  obtain ⟨sArn, hsmem, hps⟩ := processServices_mem cl cArn (lastSegment cArn)
    so.serviceArns tgsc hpss tg htgc
  obtain ⟨tl, dt, tago, _, _, _, _, hsrc, hlabels⟩ :=
    processService_ok_inv cl cArn (lastSegment cArn) sArn tg hps
  refine ⟨co, cArn, so, sArn, hco, hcmem, hso, hsmem, hsrc, ?_, ?_⟩
  · rw [hlabels]
    exact (findEntry_mergedLabels _ _ _).1
  · rw [hlabels]
    exact (findEntry_mergedLabels _ _ _).2

/-- One cluster, one service with a tag, one task with an address, for the
C8 witness. -/
def c8Client : RClient :=
  { listClusters := fun _ => (some ⟨["arn:cluster/c1"]⟩, none),
    listServices := fun _ => (some ⟨["arn:service/svcA"]⟩, none),
    listTasks := fun _ => (some ⟨["t1"]⟩, none),
    describeTasks := fun _ => (some ⟨[⟨"t1", [⟨[⟨some "10.0.0.1"⟩]⟩]⟩]⟩, none),
    listTagsForResource := fun _ => (some ⟨[⟨"team", "infra"⟩]⟩, none) }

/-- The TargetGroup `refresh c8Client` builds. -/
def c8Tg : TargetGroup :=
  ⟨"c1/svcA",
   [(labelServiceName, "svcA"), (labelClusterName, "c1"),
    ("__meta_ecs_service_tag_team", "infra")],
   [[(addressLabel, "10.0.0.1")]]⟩

/-- Witness for C8 at a concrete client (cluster `c1`, service `svcA`, one
tag): the emitted group carries source `c1/svcA` and resolvable cluster- and
service-name labels alongside the tag label. -/
theorem C8_target_group_identity_and_labels_witness :
    refresh c8Client = .ok [c8Tg] ∧
    (∃ (co : ListClustersOutput) (cArn : String)
       (so : ListServicesOutput) (sArn : String),
      c8Client.listClusters ⟨⟩ = (some co, none) ∧ cArn ∈ co.clusterArns ∧
      c8Client.listServices ⟨cArn⟩ = (some so, none) ∧ sArn ∈ so.serviceArns ∧
      c8Tg.source = lastSegment cArn ++ "/" ++ lastSegment sArn ∧
      findEntry labelClusterName c8Tg.labels = some (lastSegment cArn) ∧
      findEntry labelServiceName c8Tg.labels = some (lastSegment sArn)) := by
  constructor
  · rfl
  · exact C8_target_group_identity_and_labels c8Client [c8Tg] rfl c8Tg
      (List.mem_singleton.mpr rfl)

/-! ## Claim C9: target filtering -/

/-- What the code's target loop selects from one task: an address entry when
the containers list is nonempty and the *first* container has at least one
network interface, taken from that interface's private IPv4 address. -/
def targetOfTask (t : Task) : Option LabelSet :=
  match t.containers with
  | [] => none
  | c0 :: _ =>
    match c0.networkInterfaces with
    | [] => none
    | ni :: _ => ni.privateIpv4Address.map (fun ip => [(addressLabel, ip)])

/-- A successful target-building loop produces exactly the filterMap of the
code-side selector over the described tasks, in task order. -/
theorem buildTargets_ok (tasks : List Task) (ls : List LabelSet)
    (h : buildTargets tasks = .ok ls) :
    ls = tasks.filterMap targetOfTask := by
  induction tasks generalizing ls with
  | nil =>
    simp only [buildTargets] at h
    injection h with h'
    subst h'
    rfl
  | cons t rest ih =>
    simp only [buildTargets] at h
    split at h
    · rename_i hc
      simp [List.filterMap_cons, targetOfTask, hc, ih ls h]
    · rename_i c0 cs hc
      split at h
      · rename_i hni
        simp [List.filterMap_cons, targetOfTask, hc, hni, ih ls h]
      · rename_i ni nis hni
        split at h
        · exact GoStep.noConfusion h
        · rename_i ip hip
          split at h
          · rename_i ls' hrec
            injection h with h'
            subst h'
            simp [List.filterMap_cons, targetOfTask, hc, hni, hip, ih ls' hrec]
          · exact GoStep.noConfusion h
          · exact GoStep.noConfusion h

/-- Claim-side predicate of C9: the task has at least one network interface
(on any container) carrying a private IPv4 address. -/
def spec_taskHasNicWithIpv4 (t : Task) : Bool :=
  t.containers.any (fun c =>
    c.networkInterfaces.any (fun ni => ni.privateIpv4Address.isSome))

/-- A task whose first container has no interfaces but whose second
container has one with a private IPv4 address. -/
def c9Task : Task := ⟨"t1", [⟨[]⟩, ⟨[⟨some "10.0.0.1"⟩]⟩]⟩

def c9Client : RClient :=
  { listClusters := fun _ => (some ⟨["c1"]⟩, none),
    listServices := fun _ => (some ⟨["svcA"]⟩, none),
    listTasks := fun _ => (some ⟨["t1"]⟩, none),
    describeTasks := fun _ => (some ⟨[c9Task]⟩, none),
    listTagsForResource := fun _ => (some ⟨[]⟩, none) }

/-- A task whose first container's first interface has a nil private IPv4
address: the code dereferences it and panics. -/
def c9PanicClient : RClient :=
  { c9Client with describeTasks := fun _ => (some ⟨[⟨"t2", [⟨[⟨none⟩]⟩]⟩]⟩, none) }

/-- Counterexample to C9 as stated: `c9Task` has a network interface with a
private IPv4 address (in its second container), yet the refresh emits a
TargetGroup with an empty targets list, instead of the one entry the claim
requires; and a task whose first interface lacks a private IPv4 address is
not skipped but panics the refresh. -/
theorem C9_counterexample_targets :
    spec_taskHasNicWithIpv4 c9Task = true ∧
    refresh c9Client
      = .ok [⟨"c1/svcA", [(labelServiceName, "svcA"), (labelClusterName, "c1")], []⟩] ∧
    refresh c9PanicClient = .panic :=
  ⟨rfl, rfl, rfl⟩

/-- **C9 (amended).** For every service processed in a successful refresh,
the TargetGroup's targets list is exactly one address entry per described
task whose containers list is nonempty and whose *first* container has at
least one network interface, in task order, with the address taken from that
first interface's private IPv4 address; all other tasks are skipped, not
failures (a selected task whose first interface has a nil address panics the
refresh instead, so it never reaches an emitted group). -/
theorem C9_targets_first_container_filter :
    ∀ (cl : RClient) (tgs : List TargetGroup), refresh cl = .ok tgs →
      ∀ tg ∈ tgs, ∃ (co : ListClustersOutput) (cArn : String)
        (so : ListServicesOutput) (sArn : String)
        (tl : ListTasksOutput) (dt : DescribeTasksOutput),
        cl.listClusters ⟨⟩ = (some co, none) ∧ cArn ∈ co.clusterArns ∧
        cl.listServices ⟨cArn⟩ = (some so, none) ∧ sArn ∈ so.serviceArns ∧
        cl.listTasks ⟨cArn, sArn⟩ = (some tl, none) ∧
        cl.describeTasks (some ⟨some cArn, some tl.taskArns⟩) = (some dt, none) ∧
        tg.targets = dt.tasks.filterMap targetOfTask := by
  intro cl tgs h tg htg
  obtain ⟨co, hco, hpcs⟩ := refresh_ok_inv cl tgs h
  obtain ⟨cArn, hcmem, tgsc, hpc, htgc⟩ := processClusters_mem cl co.clusterArns tgs hpcs tg htg
  obtain ⟨so, hso, hpss⟩ := processCluster_ok_inv cl cArn tgsc hpc
  obtain ⟨sArn, hsmem, hps⟩ := processServices_mem cl cArn (lastSegment cArn)
    so.serviceArns tgsc hpss tg htgc
  obtain ⟨tl, dt, tago, htl, hdt, _, hbt, _, _⟩ :=
    processService_ok_inv cl cArn (lastSegment cArn) sArn tg hps
  exact ⟨co, cArn, so, sArn, tl, dt, hco, hcmem, hso, hsmem, htl, hdt,
    buildTargets_ok dt.tasks tg.targets hbt⟩

/-- Client for the C9 witness: one task with an address on its first
container and one task with no containers at all. -/
def c9wClient : RClient :=
  { listClusters := fun _ => (some ⟨["c2"]⟩, none),
    listServices := fun _ => (some ⟨["svcB"]⟩, none),
    listTasks := fun _ => (some ⟨["tA", "tB"]⟩, none),
    describeTasks := fun _ =>
      (some ⟨[⟨"tA", [⟨[⟨some "10.0.0.9"⟩]⟩]⟩, ⟨"tB", []⟩]⟩, none),
    listTagsForResource := fun _ => (some ⟨[]⟩, none) }

/-- The TargetGroup `refresh c9wClient` builds: one entry for the task with
an address, none for the container-less task. -/
def c9wTg : TargetGroup :=
  ⟨"c2/svcB", [(labelServiceName, "svcB"), (labelClusterName, "c2")],
   [[(addressLabel, "10.0.0.9")]]⟩

/-- Witness for the amended C9 at a concrete client. -/
theorem C9_targets_first_container_filter_witness :
    refresh c9wClient = .ok [c9wTg] ∧
    (∃ (co : ListClustersOutput) (cArn : String)
       (so : ListServicesOutput) (sArn : String)
       (tl : ListTasksOutput) (dt : DescribeTasksOutput),
      c9wClient.listClusters ⟨⟩ = (some co, none) ∧ cArn ∈ co.clusterArns ∧
      c9wClient.listServices ⟨cArn⟩ = (some so, none) ∧ sArn ∈ so.serviceArns ∧
      c9wClient.listTasks ⟨cArn, sArn⟩ = (some tl, none) ∧
      c9wClient.describeTasks (some ⟨some cArn, some tl.taskArns⟩) = (some dt, none) ∧
      c9wTg.targets = dt.tasks.filterMap targetOfTask) := by
  constructor
  · rfl
  · exact C9_targets_first_container_filter c9wClient [c9wTg] rfl c9wTg
      (List.mem_singleton.mpr rfl)

end PromEcsSd
